import Mathlib

set_option maxRecDepth 16384

/-!
Verification of the two specified components of `sofia-utils`:
the JSONC comment stripper (`strip_jsonc_comments` in `io.py`) and the
recursive pretty-printer (`str_recursively` / `str_ind` in `printing.py`).

The Python code is embedded shallowly:
* text is `List Char` / `String`;
* the stripper's scan loop over an index with backward look-up for
  backslashes is modelled as a recursion over the remaining input that also
  carries the already-consumed input in reverse (`prev`), so that the
  backward scan `while pos >= 0 and data[pos] == '\\'` becomes a count of
  leading backslashes of `prev`;
* the printer's Python heap of objects (id() based identity) is modelled as
  an association list from object ids to one-level object shapes (`Heap`),
  so that shared references and cycles are expressible;
* `raise ValueError` is modelled with `Except String`;
* the printer's recursion, which in Python terminates because the visited
  set grows along every path inside the finite heap, is modelled with an
  explicit fuel parameter; the fuel used by the top-level entry point is
  proved sufficient (`renderFuel_stable`).
-/

namespace SofiaUtils

/-! ## Comment stripper: `io.py`, `strip_jsonc_comments` -/

/-- The backward scan of `strip_jsonc_comments`
(`while pos >= 0 and data[pos] == '\\' : backslash_count += 1; pos -= 1`),
expressed on the reversed already-consumed input: number of leading
backslashes. -/
def countPrecedingBackslashes : List Char → Nat
  | '\\' :: rest => countPrecedingBackslashes rest + 1
  | _ => 0

/-- The scan loop of `strip_jsonc_comments` (io.py lines 309-353).
`prev` is the reversed list of characters already consumed (positions
`index-1, index-2, ...` of the Python string), `remaining` the input from
position `index` on.  `rest.head?` plays the role of `next_char` (which is
`''` past the end).  Each branch mirrors one `if`/`continue` block of the
Python loop, in the same order. -/
def stripLoop (prev : List Char) (remaining : List Char)
    (in_string in_single_line_comment in_multi_line_comment : Bool) : List Char :=
  match remaining with
  | [] => []
  | current_char :: rest =>
    if in_single_line_comment then
      if current_char = '\n' ∨ current_char = '\r' then
        current_char :: stripLoop (current_char :: prev) rest in_string false in_multi_line_comment
      else
        stripLoop (current_char :: prev) rest in_string true in_multi_line_comment
    else if in_multi_line_comment then
      (if current_char = '\n' ∨ current_char = '\r' then [current_char] else []) ++
        match rest with
        | next_char :: rest2 =>
          if current_char = '*' ∧ next_char = '/' then
            stripLoop ('/' :: current_char :: prev) rest2
              in_string in_single_line_comment false
          else
            stripLoop (current_char :: prev) (next_char :: rest2)
              in_string in_single_line_comment true
        | [] => stripLoop (current_char :: prev) [] in_string in_single_line_comment true
    else if current_char = '"' then
      current_char :: stripLoop (current_char :: prev) rest
        (if countPrecedingBackslashes prev % 2 = 0 then !in_string else in_string)
        in_single_line_comment in_multi_line_comment
    else
      match rest with
      | next_char :: rest2 =>
        if in_string = false ∧ current_char = '/' ∧ next_char = '/' then
          stripLoop ('/' :: current_char :: prev) rest2
            in_string true in_multi_line_comment
        else if in_string = false ∧ current_char = '/' ∧ next_char = '*' then
          stripLoop ('*' :: current_char :: prev) rest2
            in_string in_single_line_comment true
        else
          current_char :: stripLoop (current_char :: prev) (next_char :: rest2)
            in_string in_single_line_comment in_multi_line_comment
      | [] =>
        current_char :: stripLoop (current_char :: prev) []
          in_string in_single_line_comment in_multi_line_comment

/-- `strip_jsonc_comments` (io.py line 294): run the scan from the start,
with all three mode flags off. -/
def strip_jsonc_comments (data : String) : String :=
  String.mk (stripLoop [] data.data false false false)

/-- A text has no `//` or `/*` comment opener outside string literals, where
string boundaries are judged exactly as the scanner judges them (unescaped
double quotes toggle string mode).  This is the side condition of the
identity property in spec section 8. -/
def commentFree (prev : List Char) (remaining : List Char) (in_string : Bool) : Bool :=
  match remaining with
  | [] => true
  | c :: rest =>
    if c = '"' then
      commentFree (c :: prev) rest
        (if countPrecedingBackslashes prev % 2 = 0 then !in_string else in_string)
    else if in_string = false ∧ c = '/' ∧ (rest.head? = some '/' ∨ rest.head? = some '*') then
      false
    else
      commentFree (c :: prev) rest in_string

theorem head_cons_tail {l : List Char} {c : Char} (h : l.head? = some c) :
    l = c :: l.tail := by
  cases l <;> simp_all

/-! Step lemmas: one per branch of the scan loop. -/

theorem stripLoop_nil (prev : List Char) (s a b : Bool) :
    stripLoop prev [] s a b = [] := rfl

theorem stripLoop_line_nl {c : Char} (prev rest : List Char) (s b : Bool)
    (h : c = '\n' ∨ c = '\r') :
    stripLoop prev (c :: rest) s true b =
      c :: stripLoop (c :: prev) rest s false b := by
  rw [stripLoop.eq_def]
  simp [h]

theorem stripLoop_line_drop {c : Char} (prev rest : List Char) (s b : Bool)
    (h : ¬(c = '\n' ∨ c = '\r')) :
    stripLoop prev (c :: rest) s true b =
      stripLoop (c :: prev) rest s true b := by
  rw [stripLoop.eq_def]
  simp [h]

theorem stripLoop_block_close {c : Char} (prev rest : List Char) (s : Bool)
    (hc : c = '*') (h : rest.head? = some '/') :
    stripLoop prev (c :: rest) s false true =
      stripLoop ('/' :: c :: prev) rest.tail s false false := by
  subst hc
  cases rest with
  | nil => simp at h
  | cons r rt =>
      simp only [List.head?_cons, Option.some.injEq] at h
      subst h
      rw [stripLoop.eq_def]
      simp

theorem stripLoop_block_keep {c : Char} (prev rest : List Char) (s : Bool)
    (h : ¬(c = '*' ∧ rest.head? = some '/')) :
    stripLoop prev (c :: rest) s false true =
      (if c = '\n' ∨ c = '\r' then [c] else []) ++
        stripLoop (c :: prev) rest s false true := by
  cases rest with
  | nil => rw [stripLoop.eq_def]; simp
  | cons r rt =>
      have h' : ¬(c = '*' ∧ r = '/') := by simpa using h
      rw [stripLoop.eq_def]
      simp [h']

theorem stripLoop_quote (prev rest : List Char) (s : Bool) :
    stripLoop prev ('"' :: rest) s false false =
      '"' :: stripLoop ('"' :: prev) rest
        (if countPrecedingBackslashes prev % 2 = 0 then !s else s) false false := by
  cases rest with
  | nil => rw [stripLoop.eq_def]; simp
  | cons r rt => rw [stripLoop.eq_def]; simp

theorem stripLoop_line_open {c : Char} (prev rest : List Char)
    (hc : c = '/') (h : rest.head? = some '/') :
    stripLoop prev (c :: rest) false false false =
      stripLoop ('/' :: c :: prev) rest.tail false true false := by
  subst hc
  cases rest with
  | nil => simp at h
  | cons r rt =>
      simp only [List.head?_cons, Option.some.injEq] at h
      subst h
      rw [stripLoop.eq_def]
      simp

theorem stripLoop_block_open {c : Char} (prev rest : List Char)
    (hc : c = '/') (h : rest.head? = some '*') :
    stripLoop prev (c :: rest) false false false =
      stripLoop ('*' :: c :: prev) rest.tail false false true := by
  subst hc
  cases rest with
  | nil => simp at h
  | cons r rt =>
      simp only [List.head?_cons, Option.some.injEq] at h
      subst h
      rw [stripLoop.eq_def]
      simp

theorem stripLoop_copy {c : Char} (prev rest : List Char) (s : Bool)
    (hq : ¬ c = '"')
    (h7 : ¬(s = false ∧ c = '/' ∧ rest.head? = some '/'))
    (h8 : ¬(s = false ∧ c = '/' ∧ rest.head? = some '*')) :
    stripLoop prev (c :: rest) s false false =
      c :: stripLoop (c :: prev) rest s false false := by
  cases rest with
  | nil => rw [stripLoop.eq_def]; simp [hq]
  | cons r rt =>
      have h7' : ¬(s = false ∧ c = '/' ∧ r = '/') := by simpa using h7
      have h8' : ¬(s = false ∧ c = '/' ∧ r = '*') := by simpa using h8
      rw [stripLoop.eq_def]
      simp [hq, h7', h8']

/-- Line-count invariant (C4), loop level, by strong induction on the
length of the remaining input: the scan preserves the number of newline
characters, whatever mode it is in. -/
theorem stripLoop_count_aux : ∀ (n : Nat) (remaining : List Char),
    remaining.length ≤ n → ∀ (prev : List Char) (s a b : Bool),
    (stripLoop prev remaining s a b).count '\n' = remaining.count '\n' := by
  intro n
  induction n with
  | zero =>
      intro remaining hlen prev s a b
      have : remaining = [] := List.length_eq_zero.mp (Nat.le_zero.mp hlen)
      subst this
      simp [stripLoop_nil]
  | succ n ih =>
      intro remaining hlen prev s a b
      match remaining with
      | [] => simp [stripLoop_nil]
      | c :: rest =>
        have hr : rest.length ≤ n := by
          simp only [List.length_cons] at hlen; omega
        cases a with
        | true =>
            by_cases hnl : c = '\n' ∨ c = '\r'
            · rw [stripLoop_line_nl prev rest s b hnl]
              simp [List.count_cons, ih rest hr]
            · have hcn : ¬ c = '\n' := fun h => hnl (Or.inl h)
              rw [stripLoop_line_drop prev rest s b hnl]
              simp [List.count_cons, ih rest hr, hcn]
        | false =>
            cases b with
            | true =>
                by_cases hcl : c = '*' ∧ rest.head? = some '/'
                · rw [stripLoop_block_close prev rest s hcl.1 hcl.2]
                  obtain ⟨hstar, hh⟩ := hcl
                  subst hstar
                  match rest, hh with
                  | r :: rt, hh =>
                    simp only [List.head?_cons, Option.some.injEq] at hh
                    subst hh
                    have hrt : rt.length ≤ n := by
                      simp only [List.length_cons] at hr; omega
                    simpa using ih rt hrt ('/' :: '*' :: prev) s false false
                · rw [stripLoop_block_keep prev rest s hcl, List.count_append,
                    ih rest hr]
                  by_cases hn : c = '\n'
                  · simp [List.count_cons, hn]
                    omega
                  · by_cases hcr : c = '\r' <;> simp [List.count_cons, hn, hcr]
            | false =>
                by_cases hq : c = '"'
                · subst hq
                  rw [stripLoop_quote prev rest s]
                  simp [List.count_cons, ih rest hr]
                · by_cases h7 : s = false ∧ c = '/' ∧ rest.head? = some '/'
                  · obtain ⟨hst, hsl, hh⟩ := h7
                    subst hst
                    rw [stripLoop_line_open prev rest hsl hh]
                    subst hsl
                    match rest, hh with
                    | r :: rt, hh =>
                      simp only [List.head?_cons, Option.some.injEq] at hh
                      subst hh
                      have hrt : rt.length ≤ n := by
                        simp only [List.length_cons] at hr; omega
                      simpa using ih rt hrt ('/' :: '/' :: prev) false true false
                  · by_cases h8 : s = false ∧ c = '/' ∧ rest.head? = some '*'
                    · obtain ⟨hst, hsl, hh⟩ := h8
                      subst hst
                      rw [stripLoop_block_open prev rest hsl hh]
                      subst hsl
                      match rest, hh with
                      | r :: rt, hh =>
                        simp only [List.head?_cons, Option.some.injEq] at hh
                        subst hh
                        have hrt : rt.length ≤ n := by
                          simp only [List.length_cons] at hr; omega
                        simpa using ih rt hrt ('*' :: '/' :: prev) false false true
                    · rw [stripLoop_copy prev rest s hq h7 h8]
                      simp [List.count_cons, ih rest hr]

theorem stripLoop_count_newlines (prev remaining : List Char) (s a b : Bool) :
    (stripLoop prev remaining s a b).count '\n' = remaining.count '\n' :=
  stripLoop_count_aux remaining.length remaining (Nat.le_refl _) prev s a b

/-- On comment-free input the scan loop only ever copies: every character
of the remaining input is emitted unchanged. -/
theorem stripLoop_commentFree (remaining : List Char) : ∀ (prev : List Char) (s : Bool),
    commentFree prev remaining s = true →
    stripLoop prev remaining s false false = remaining := by
  induction remaining with
  | nil => intro prev s _; simp [stripLoop_nil]
  | cons c rest ih =>
      intro prev s h
      by_cases hq : c = '"'
      · subst hq
        rw [stripLoop_quote]
        simp only [commentFree, if_pos rfl] at h
        rw [ih _ _ h]
      · by_cases h7 : s = false ∧ c = '/' ∧ (rest.head? = some '/' ∨ rest.head? = some '*')
        · exfalso
          simp only [commentFree, if_neg hq, if_pos h7] at h
          exact Bool.false_ne_true h
        · have h77 : ¬(s = false ∧ c = '/' ∧ rest.head? = some '/') := by
            rintro ⟨a1, a2, a3⟩; exact h7 ⟨a1, a2, Or.inl a3⟩
          have h88 : ¬(s = false ∧ c = '/' ∧ rest.head? = some '*') := by
            rintro ⟨a1, a2, a3⟩; exact h7 ⟨a1, a2, Or.inr a3⟩
          rw [stripLoop_copy prev rest s hq h77 h88]
          simp only [commentFree, if_neg hq, if_neg h7] at h
          rw [ih _ _ h]

theorem countPrecedingBackslashes_replicate (bs : Nat) (prev : List Char) :
    countPrecedingBackslashes (List.replicate bs '\\' ++ prev) =
      bs + countPrecedingBackslashes prev := by
  induction bs with
  | zero => simp
  | succ n ih =>
      rw [List.replicate_succ, List.cons_append]
      rw [show countPrecedingBackslashes ('\\' :: (List.replicate n '\\' ++ prev)) =
        countPrecedingBackslashes (List.replicate n '\\' ++ prev) + 1 from rfl, ih]
      omega

theorem replicate_append_cons (n : Nat) (a : Char) (l : List Char) :
    List.replicate n a ++ a :: l = a :: (List.replicate n a ++ l) := by
  induction n with
  | zero => simp
  | succ m ihm => simp [List.replicate_succ, ihm]

/-- A run of backslashes (in normal or string mode) is copied verbatim:
each backslash takes the final copy branch of the loop. -/
theorem stripLoop_backslashes (bs : Nat) : ∀ (prev rest : List Char) (s : Bool),
    stripLoop prev (List.replicate bs '\\' ++ rest) s false false =
      List.replicate bs '\\' ++
        stripLoop (List.replicate bs '\\' ++ prev) rest s false false := by
  induction bs with
  | zero => intro prev rest s; simp
  | succ n ih =>
      intro prev rest s
      rw [List.replicate_succ, List.cons_append, List.cons_append]
      rw [stripLoop_copy prev _ s (by decide)
        (by rintro ⟨-, h, -⟩; exact absurd h (by decide))
        (by rintro ⟨-, h, -⟩; exact absurd h (by decide))]
      rw [ih ('\\' :: prev) rest s]
      rw [replicate_append_cons]
      simp [List.replicate_succ]

/-- C4 (confirmed).  `strip_jsonc_comments` preserves the number of
newline characters exactly, for every input text: newlines in normal text,
line comments and block comments are all re-emitted. -/
theorem strip_jsonc_comments_newline_count (data : String) :
    (strip_jsonc_comments data).data.count '\n' = data.data.count '\n' := by
  show (stripLoop [] data.data false false false).count '\n' = data.data.count '\n'
  exact stripLoop_count_newlines [] data.data false false false

/-- C5 (confirmed).  On any text with no `//` or `/*` opener outside string
literals (as expressed by `commentFree`, which tracks string mode exactly
like the scanner), `strip_jsonc_comments` is the identity; in particular
the empty input yields the empty output. -/
theorem strip_jsonc_comments_id (T : String)
    (h : commentFree [] T.data false = true) :
    strip_jsonc_comments T = T := by
  obtain ⟨l⟩ := T
  show String.mk (stripLoop [] l false false false) = String.mk l
  rw [stripLoop_commentFree l [] false h]

theorem strip_jsonc_comments_id_witness :
    (commentFree [] ("\x7b\"a\": \"b//c\", \"n\": 1\x7d".data) false = true ∧
      strip_jsonc_comments "\x7b\"a\": \"b//c\", \"n\": 1\x7d" =
        "\x7b\"a\": \"b//c\", \"n\": 1\x7d") ∧
    (commentFree [] ("".data) false = true ∧ strip_jsonc_comments "" = "") :=
  ⟨⟨by decide, strip_jsonc_comments_id _ (by decide)⟩,
   ⟨by decide, strip_jsonc_comments_id _ (by decide)⟩⟩

/-- C3 (confirmed).  A double quote reached outside any comment toggles
string mode if and only if the number of consecutive backslashes
immediately before it is even: after a run of `bs` backslashes preceded by
a non-backslash, the quote is emitted and scanning continues with string
mode toggled exactly when `bs` is even.  Moreover the spec's concrete
escaped-quote example strips as stated. -/
theorem strip_quote_toggle_iff_even_backslashes :
    (∀ (bs : Nat) (s : Bool) (rest prev : List Char),
      countPrecedingBackslashes prev = 0 →
      stripLoop prev (List.replicate bs '\\' ++ '"' :: rest) s false false =
        List.replicate bs '\\' ++ '"' ::
          stripLoop ('"' :: (List.replicate bs '\\' ++ prev)) rest
            (if bs % 2 = 0 then !s else s) false false) ∧
    strip_jsonc_comments "\"a\\\"b\" // note" = "\"a\\\"b\" " := by
  constructor
  · intro bs s rest prev h
    rw [stripLoop_backslashes bs prev ('"' :: rest) s]
    rw [stripLoop_quote (List.replicate bs '\\' ++ prev) rest s]
    rw [countPrecedingBackslashes_replicate bs prev, h]
    simp
  · decide

theorem strip_quote_toggle_witness :
    countPrecedingBackslashes [] = 0 ∧
    stripLoop [] (List.replicate 1 '\\' ++ '"' :: ['x']) true false false =
      List.replicate 1 '\\' ++ '"' ::
        stripLoop ('"' :: (List.replicate 1 '\\' ++ [])) ['x']
          (if 1 % 2 = 0 then !true else true) false false :=
  ⟨rfl, strip_quote_toggle_iff_even_backslashes.1 1 true ['x'] [] rfl⟩

/-- C8 (confirmed).  While in string mode a `/` is copied literally and
never opens a comment, whatever follows it; and the spec's concrete
example (`//` inside a string literal is kept, the real trailing line
comment is dropped, its newline kept) strips as stated. -/
theorem strip_slash_in_string_literal :
    (∀ (prev rest : List Char),
      stripLoop prev ('/' :: rest) true false false =
        '/' :: stripLoop ('/' :: prev) rest true false false) ∧
    strip_jsonc_comments "\x7b\"a\": \"http://x\", \"b\": 1 // c\n\x7d" =
      "\x7b\"a\": \"http://x\", \"b\": 1 \n\x7d" := by
  constructor
  · intro prev rest
    exact stripLoop_copy prev rest true (by decide)
      (by rintro ⟨h, -, -⟩; exact absurd h (by decide))
      (by rintro ⟨h, -, -⟩; exact absurd h (by decide))
  · decide

/-! ## Recursive printer: `printing.py` -/

def INDENT_SPACES : Nat := 4

def MAX_RECURSION_DEPTH : Nat := 10

def MIN_B64_IMG_ENCONDING_LENGTH : Nat := 2000

/-- Python `sep.join(parts)`. -/
def pyJoin (sep : String) : List String → String
  | [] => ""
  | [part] => part
  | part :: rest => part ++ sep ++ pyJoin sep rest

/-- Python `s.split('\n')`: maximal `'\n'`-free segments; the empty string
gives `[""]`, a trailing newline contributes a final `""`. -/
def splitNl : List Char → List (List Char)
  | [] => [[]]
  | c :: rest =>
    if c = '\n' then [] :: splitNl rest
    else
      match splitNl rest with
      | h :: t => (c :: h) :: t
      | [] => [[c]]

/-- The `match indent_type` at the top of `str_ind` (printing.py lines
92-99): the indentation prefix, or `none` for the `case _` arm that
raises `ValueError`. -/
def indentSpace (indent_type : String) (indent_level : Nat) : Option String :=
  match indent_type with
  | "spaces" => some (String.mk (List.replicate (INDENT_SPACES * indent_level) ' '))
  | "tabs" => some (String.mk (List.replicate indent_level '\t'))
  | _ => none

/-- `str_ind` (printing.py line 79): prefix every line of the argument
with the indentation prefix; the invalid-indent-type arm raises
`ValueError`, modelled as `Except.error`. -/
def str_ind (argument : String) (indent_level : Nat) (indent_type : String) :
    Except String String :=
  match indentSpace indent_type indent_level with
  | Option.none =>
      Except.error ("In str_ind: Invalid ind_type \x27" ++ indent_type ++ "\x27")
  | Option.some space =>
      Except.ok (pyJoin "\n"
        ((splitNl argument.data).map (fun line => space ++ String.mk line)))

def hexDigit (n : Nat) : Char :=
  if n < 10 then Char.ofNat ('0'.toNat + n) else Char.ofNat ('a'.toNat + (n - 10))

/-- Python `f'{b:02x}'` for one byte value. -/
def byteHex (b : Fin 256) : String :=
  String.mk [hexDigit (b.val / 16), hexDigit (b.val % 16)]

/-- The bytes branch of `str_recursively` (printing.py lines 142-151). -/
def bytesShown (bs : List (Fin 256)) : String :=
  let shown := bs.take (min 4 bs.length)
  let shown_str := pyJoin " " (shown.map byteHex)
  if 4 < bs.length then shown_str ++ " ..." else shown_str

/-- The character class `[A-Za-z0-9+/=]` of the Base64 redaction regexes
(printing.py line 158). -/
def isB64Char (c : Char) : Bool :=
  decide (('A' ≤ c ∧ c ≤ 'Z') ∨ ('a' ≤ c ∧ c ≤ 'z') ∨ ('0' ≤ c ∧ c ≤ '9') ∨
    c = '+' ∨ c = '/' ∨ c = '=')

/-- `re.match(r'[A-Za-z0-9+/=]+$', s)` (printing.py line 160).  Anchored
at the start; `$` (without MULTILINE) matches at the end of the string or
just before a final newline.  `\n` is not in the class, so backtracking
cannot find any other split and the match succeeds in exactly these two
cases. -/
def b64TailMatch (cs : List Char) : Bool :=
  (!cs.isEmpty && cs.all isB64Char) ||
    (cs.getLast? == some '\n' && !cs.dropLast.isEmpty && cs.dropLast.all isB64Char)

/-- `re.match(r'data:image/[a-z]+;base64,[A-Za-z0-9+/=]+$', s)`
(printing.py line 159).  The literal after `[a-z]+` begins with `;`,
which is not in `[a-z]`, and the Base64 body must extend to `$`, so both
repetitions are forced to be maximal and the regex is equivalent to this
deterministic scan. -/
def dataImageMatch (cs : List Char) : Bool :=
  let pre := "data:image/".data
  if cs.take pre.length == pre then
    let rest := cs.drop pre.length
    let fmt := rest.takeWhile (fun c => decide ('a' ≤ c ∧ c ≤ 'z'))
    let rest2 := rest.drop fmt.length
    let mid := ";base64,".data
    !fmt.isEmpty && rest2.take mid.length == mid &&
      b64TailMatch (rest2.drop mid.length)
  else false

/-- One Python value, one level deep.  Containers hold the ids of their
elements, so the Python heap (with shared references and cycles) is an
association list from ids to shapes.

The branches of `str_recursively` dispatch on `isinstance` checks; each
constructor corresponds to one branch.  Python `bool` is a subclass of
`int`, so boolean values satisfy `isinstance(data, int)` and take the
numeric branch (printing.py line 168) with `data.__class__.__name__ ==
'bool'`; `Obj.bool` renders accordingly.  `Obj.obj` carries the resolved
attribute dictionary (`__dict__`, or the `__slots__` fallback which
produces the same mapping); an object with neither behaves exactly like
one with no visible attributes, both rendering as the bare header line.
`Obj.other` is the fallback branch; it stores `type(data).__name__` and
`str(type(data))`. -/
inductive Obj where
  | none
  | bytes (bs : List (Fin 256))
  | str (s : String)
  | bool (b : Bool)
  | int (n : Int)
  | float (f_repr : String)
  | list (items : List Nat)
  | tuple (items : List Nat)
  | dict (entries : List (String × Nat))
  | typ (name : String)
  | obj (cls : String) (attrs : List (String × Nat))
  | other (type_name : String) (type_repr : String)
  deriving DecidableEq

abbrev Heap := List (Nat × Obj)

/-- Python `type(data).__name__`. -/
def typeName : Obj → String
  | Obj.none => "NoneType"
  | Obj.bytes _ => "bytes"
  | Obj.str _ => "str"
  | Obj.bool _ => "bool"
  | Obj.int _ => "int"
  | Obj.float _ => "float"
  | Obj.list _ => "list"
  | Obj.tuple _ => "tuple"
  | Obj.dict _ => "dict"
  | Obj.typ _ => "type"
  | Obj.obj cls _ => cls
  | Obj.other type_name _ => type_name

/-- Python `str` of a boolean. -/
def pyBool : Bool → String
  | true => "True"
  | false => "False"

/-- The ids a shape refers to (used to state heap well-formedness: in a
real Python heap every reference resolves). -/
def refsOf : Obj → List Nat
  | Obj.list items => items
  | Obj.tuple items => items
  | Obj.dict entries => entries.map Prod.snd
  | Obj.obj _ attrs => attrs.map Prod.snd
  | _ => []

/-- The `for item in data` loop of the list/tuple branch (printing.py
lines 187-189): a `'[>] item:'` marker line, then the item's rendering. -/
def renderSeqBody (recur : Nat → Except String String) (indent_level : Nat)
    (indent_type : String) : List Nat → Except String (List String)
  | [] => Except.ok []
  | item :: rest => do
      let hd ← str_ind "[>] item:" indent_level indent_type
      let bd ← recur item
      let tl ← renderSeqBody recur indent_level indent_type rest
      Except.ok (hd :: bd :: tl)

/-- The `for key, val in data.items()` loop of the dict branch (printing.py
lines 207-211), also used verbatim for the object-attribute loop (lines
260-264): a `'[>] <key>:'` marker line, then the value's rendering. -/
def renderKVBody (recur : Nat → Except String String) (indent_level : Nat)
    (indent_type : String) : List (String × Nat) → Except String (List String)
  | [] => Except.ok []
  | (key, val) :: rest => do
      let hd ← str_ind ("[>] " ++ key ++ ":") indent_level indent_type
      let bd ← recur val
      let tl ← renderKVBody recur indent_level indent_type rest
      Except.ok (hd :: bd :: tl)

/-- The body of `str_recursively` (printing.py lines 108-273) over the
heap model.  `visited` is the `_visited` set restricted to the active
recursion path: the Python code adds `id(data)` on entry and removes it on
every return path after all child calls have completed, so during the
child calls the set holds exactly `data_id :: visited`, and when the call
returns the set is as before — the functional model therefore passes
`data_id :: visited` to the child calls and nothing back up.  `fuel`
bounds the call depth; the entry point `str_recursively` supplies fuel
that is proved sufficient below (`renderFuel_stable`). -/
def renderFuel (heap : Heap) : Nat → Nat → Nat → String → List Nat →
    Except String String
  | 0, _, _, _, _ => Except.error "recursion fuel exhausted"
  | fuel + 1, data_id, indent_level, indent_type, visited =>
    match List.lookup data_id heap with
    | Option.none => Except.error "dangling object reference"
    | Option.some data =>
      if data_id ∈ visited then
        str_ind ("<circular reference to " ++ typeName data ++ ">")
          indent_level indent_type
      else
        match data with
        | Obj.none => str_ind "None" indent_level indent_type
        | Obj.bytes bs =>
            str_ind ("bytes: " ++ bytesShown bs) indent_level indent_type
        | Obj.str s =>
            if decide (MIN_B64_IMG_ENCONDING_LENGTH ≤ s.length) &&
                (dataImageMatch s.data || b64TailMatch s.data) then
              str_ind "str: [Base64 Image Enconding]" indent_level indent_type
            else
              str_ind ("str: " ++ s) indent_level indent_type
        | Obj.bool b =>
            str_ind ("bool: " ++ pyBool b) indent_level indent_type
        | Obj.int n =>
            str_ind ("int: " ++ toString n) indent_level indent_type
        | Obj.float f_repr =>
            str_ind ("float: " ++ f_repr) indent_level indent_type
        | Obj.list items =>
            if items.isEmpty then
              str_ind "list: []" indent_level indent_type
            else do
              let title ← str_ind "list:" indent_level indent_type
              let ob ← str_ind "[" indent_level indent_type
              let body ← renderSeqBody
                (fun i => renderFuel heap fuel i (indent_level + 1) indent_type
                  (data_id :: visited)) indent_level indent_type items
              let cb ← str_ind "]" indent_level indent_type
              Except.ok (pyJoin "\n" (title :: ob :: (body ++ [cb])))
        | Obj.tuple items =>
            if items.isEmpty then
              str_ind "tuple: ()" indent_level indent_type
            else do
              let title ← str_ind "tuple:" indent_level indent_type
              let ob ← str_ind "(" indent_level indent_type
              let body ← renderSeqBody
                (fun i => renderFuel heap fuel i (indent_level + 1) indent_type
                  (data_id :: visited)) indent_level indent_type items
              let cb ← str_ind ")" indent_level indent_type
              Except.ok (pyJoin "\n" (title :: ob :: (body ++ [cb])))
        | Obj.dict entries =>
            if entries.isEmpty then
              str_ind "dict: \x7b\x7d" indent_level indent_type
            else do
              let title ← str_ind "dict:" indent_level indent_type
              let ob ← str_ind "\x7b" indent_level indent_type
              let body ← renderKVBody
                (fun v => renderFuel heap fuel v (indent_level + 1) indent_type
                  (data_id :: visited)) indent_level indent_type entries
              let cb ← str_ind "\x7d" indent_level indent_type
              Except.ok (pyJoin "\n" (title :: ob :: (body ++ [cb])))
        | Obj.typ name =>
            str_ind ("definition of class \x27" ++ name ++ "\x27")
              indent_level indent_type
        | Obj.obj cls attrs => do
            let header ← str_ind ("object of class \x27" ++ cls ++ "\x27")
              indent_level indent_type
            if MAX_RECURSION_DEPTH < indent_level then do
              let marker ← str_ind "<max depth reached>" (indent_level + 1)
                indent_type
              Except.ok (pyJoin "\n" [header, marker])
            else
              let filtered := attrs.filter
                (fun kv => !(kv.1.startsWith "_" || kv.1.startsWith "__"))
              if filtered.isEmpty then
                Except.ok (pyJoin "\n" [header])
              else do
                let ob ← str_ind "\x7b" indent_level indent_type
                let body ← renderKVBody
                  (fun v => renderFuel heap fuel v (indent_level + 1) indent_type
                    (data_id :: visited)) indent_level indent_type filtered
                let cb ← str_ind "\x7d" indent_level indent_type
                Except.ok (pyJoin "\n" (header :: ob :: (body ++ [cb])))
        | Obj.other _ type_repr =>
            str_ind ("object of type " ++ type_repr) indent_level indent_type

/-- `str_recursively` called with `_visited = None` (printing.py line
108): the visited set starts empty.  The supplied fuel `heap.length + 1`
is proved sufficient by `renderFuel_stable`: every recursion step enters
an id that is in the heap and not yet on the path. -/
def str_recursively (heap : Heap) (data_id : Nat) (indent_level : Nat)
    (indent_type : String) : Except String String :=
  renderFuel heap (heap.length + 1) data_id indent_level indent_type []

/-! ### Fuel bookkeeping

Python's `str_recursively` terminates because along every call path each
recursive entry adds a fresh id (present in the heap, absent from
`_visited`) to the visited set, so the depth never exceeds the number of
heap entries.  `freeCount` measures the entries not yet on the path;
`renderFuel_stable` below shows the result no longer depends on the fuel
once the fuel exceeds that measure — which is the termination argument. -/

def freeCount (heap : Heap) (visited : List Nat) : Nat :=
  (heap.filter (fun e => decide (e.1 ∉ visited))).length

theorem length_filter_mono {α : Type} (l : List α) (p q : α → Bool)
    (h : ∀ x, q x = true → p x = true) :
    (l.filter q).length ≤ (l.filter p).length := by
  induction l with
  | nil => simp
  | cons x t ih =>
      by_cases hq : q x = true
      · simp [List.filter_cons, hq, h x hq]
        omega
      · simp only [List.filter_cons]
        rw [if_neg hq]
        by_cases hp : p x = true
        · simp [hp]; omega
        · rw [if_neg hp]; exact ih

theorem freeCount_le_length (heap : Heap) (visited : List Nat) :
    freeCount heap visited ≤ heap.length :=
  List.length_filter_le _ _

theorem lookup_mem {heap : Heap} {id : Nat} {o : Obj}
    (h : List.lookup id heap = some o) : (id, o) ∈ heap := by
  induction heap with
  | nil => simp [List.lookup] at h
  | cons e t ih =>
      obtain ⟨k, v⟩ := e
      cases hbe : (id == k) with
      | true =>
          have hk : id = k := by simpa using hbe
          simp only [List.lookup, hbe] at h
          obtain rfl : v = o := Option.some.inj h
          subst hk
          exact List.mem_cons_self _ _
      | false =>
          simp only [List.lookup, hbe] at h
          exact List.mem_cons_of_mem _ (ih h)

theorem freeCount_visit (heap : Heap) (visited : List Nat) (id : Nat)
    (data : Obj) (hlook : List.lookup id heap = some data)
    (hnv : id ∉ visited) :
    freeCount heap (id :: visited) < freeCount heap visited := by
  induction heap with
  | nil => simp [List.lookup] at hlook
  | cons e t ih =>
      obtain ⟨k, v⟩ := e
      have hmono := length_filter_mono t
        (fun e => decide (e.1 ∉ visited))
        (fun e => decide (e.1 ∉ id :: visited))
        (by
          intro x hx
          simp only [decide_eq_true_eq] at hx ⊢
          intro hmem
          exact hx (List.mem_cons_of_mem _ hmem))
      cases hbe : (id == k) with
      | true =>
          have hk : id = k := by simpa using hbe
          subst hk
          have h1 : decide ((id, v).1 ∉ visited) = true := by simpa using hnv
          have h2 : decide ((id, v).1 ∉ id :: visited) = false := by simp
          unfold freeCount
          rw [List.filter_cons, List.filter_cons, h1, h2]
          simp only [Bool.false_eq_true, if_false, if_true, List.length_cons]
          omega
      | false =>
          simp only [List.lookup, hbe] at hlook
          have hne : k ≠ id := fun hh => by simp [hh] at hbe
          have key := ih hlook
          unfold freeCount at key ⊢
          rw [List.filter_cons, List.filter_cons]
          by_cases hv : k ∉ visited
          · have h1 : decide ((k, v).1 ∉ visited) = true := by simpa using hv
            have h2 : decide ((k, v).1 ∉ id :: visited) = true := by
              simp only [decide_eq_true_eq]
              simp [hne, hv]
            rw [h1, h2]
            simp only [if_true, List.length_cons]
            omega
          · have h1 : decide ((k, v).1 ∉ visited) = false := by simpa using hv
            have h2 : decide ((k, v).1 ∉ id :: visited) = false := by
              simp only [decide_eq_false_iff_not]
              intro hcon
              rw [not_not] at hv
              exact hcon (List.mem_cons_of_mem _ hv)
            rw [h1, h2]
            simpa using key

/-- Once the fuel exceeds the number of heap entries not yet on the path,
the result of `renderFuel` no longer depends on the fuel.  This is the
termination argument of the Python function: the visited set grows along
every call path inside the finite heap. -/
theorem renderFuel_stable_aux : ∀ (n : Nat) (heap : Heap) (f g data_id lvl : Nat)
    (ty : String) (visited : List Nat),
    f ≤ n → freeCount heap visited + 1 ≤ f → freeCount heap visited + 1 ≤ g →
    renderFuel heap f data_id lvl ty visited =
      renderFuel heap g data_id lvl ty visited := by
  intro n
  induction n with
  | zero =>
      intro heap f g data_id lvl ty visited hf hbf hbg
      exfalso
      omega
  | succ n ih =>
      intro heap f g data_id lvl ty visited hf hbf hbg
      obtain ⟨f', rfl⟩ : ∃ f', f = f' + 1 := ⟨f - 1, by omega⟩
      obtain ⟨g', rfl⟩ : ∃ g', g = g' + 1 := ⟨g - 1, by omega⟩
      simp only [renderFuel]
      cases hlook : List.lookup data_id heap with
      | none => rfl
      | some data =>
          by_cases hv : data_id ∈ visited
          · simp [hv]
          · simp only [if_neg hv]
            have hrec : ∀ v, renderFuel heap f' v (lvl + 1) ty (data_id :: visited) =
                renderFuel heap g' v (lvl + 1) ty (data_id :: visited) := by
              intro v
              have hdec := freeCount_visit heap visited data_id data hlook hv
              exact ih heap f' g' v (lvl + 1) ty (data_id :: visited)
                (by omega) (by omega) (by omega)
            have hfun : (fun v => renderFuel heap f' v (lvl + 1) ty (data_id :: visited)) =
                (fun v => renderFuel heap g' v (lvl + 1) ty (data_id :: visited)) :=
              funext hrec
            cases data <;> first | rfl | rw [hfun]

theorem renderFuel_stable (heap : Heap) (f g data_id lvl : Nat) (ty : String)
    (visited : List Nat) (hbf : freeCount heap visited + 1 ≤ f)
    (hbg : freeCount heap visited + 1 ≤ g) :
    renderFuel heap f data_id lvl ty visited =
      renderFuel heap g data_id lvl ty visited :=
  renderFuel_stable_aux f heap f g data_id lvl ty visited (Nat.le_refl f) hbf hbg

/-- Any fuel of at least `heap.length + 1` computes `str_recursively`. -/
theorem str_recursively_fuel_independent (heap : Heap) (data_id lvl : Nat)
    (ty : String) (fuel : Nat) (h : heap.length + 1 ≤ fuel) :
    renderFuel heap fuel data_id lvl ty [] = str_recursively heap data_id lvl ty := by
  unfold str_recursively
  exact renderFuel_stable heap fuel (heap.length + 1) data_id lvl ty []
    (by have := freeCount_le_length heap []; omega)
    (by have := freeCount_le_length heap []; omega)

/-! ### Totality for valid indent types -/

/-- The two indent types the `match` in `str_ind` accepts; anything else
hits the `case _` arm and raises `ValueError`. -/
def validIndentType (ty : String) : Prop := ty = "spaces" ∨ ty = "tabs"

theorem str_ind_ok (arg : String) (lvl : Nat) (ty : String)
    (h : validIndentType ty) : ∃ s, str_ind arg lvl ty = Except.ok s := by
  rcases h with h | h <;> subst h <;> exact ⟨_, rfl⟩

/-- Every reference in the heap resolves — true of any actual Python heap,
where every value held by a container is a live object. -/
def closedHeap (heap : Heap) : Bool :=
  heap.all (fun e => (refsOf e.2).all (fun r => (List.lookup r heap).isSome))

theorem closedHeap_resolve {heap : Heap} (hC : closedHeap heap = true)
    {data_id : Nat} {o : Obj} (hlook : List.lookup data_id heap = some o)
    {r : Nat} (hr : r ∈ refsOf o) : ∃ o2, List.lookup r heap = some o2 := by
  have hm := lookup_mem hlook
  have h1 := List.all_eq_true.mp hC _ hm
  have h2 := List.all_eq_true.mp h1 _ hr
  exact Option.isSome_iff_exists.mp h2

theorem exbind_ok {α β : Type} (a : α) (f : α → Except String β) :
    (Except.ok a >>= f) = f a := rfl

theorem renderSeqBody_ok (recur : Nat → Except String String) (lvl : Nat)
    (ty : String) (hty : validIndentType ty) (items : List Nat)
    (h : ∀ i ∈ items, ∃ s, recur i = Except.ok s) :
    ∃ L, renderSeqBody recur lvl ty items = Except.ok L := by
  induction items with
  | nil => exact ⟨[], rfl⟩
  | cons i rest ih =>
      obtain ⟨hd, hhd⟩ := str_ind_ok "[>] item:" lvl ty hty
      obtain ⟨bd, hbd⟩ := h i (List.mem_cons_self _ _)
      obtain ⟨L, hL⟩ := ih (fun j hj => h j (List.mem_cons_of_mem _ hj))
      exact ⟨hd :: bd :: L, by simp [renderSeqBody, hhd, hbd, hL, exbind_ok]⟩

/-- The key-value loop succeeds when every value's rendering does, and its
result list contains the rendering of each entry. -/
theorem renderKVBody_ok_mem (recur : Nat → Except String String) (lvl : Nat)
    (ty : String) (hty : validIndentType ty) (entries : List (String × Nat))
    (h : ∀ kv ∈ entries, ∃ s, recur kv.2 = Except.ok s) :
    ∃ L, renderKVBody recur lvl ty entries = Except.ok L ∧
      ∀ k v m, (k, v) ∈ entries → recur v = Except.ok m → m ∈ L := by
  induction entries with
  | nil => exact ⟨[], rfl, by simp⟩
  | cons kv rest ih =>
      obtain ⟨k0, v0⟩ := kv
      obtain ⟨hd, hhd⟩ := str_ind_ok ("[>] " ++ k0 ++ ":") lvl ty hty
      obtain ⟨bd, hbd⟩ := h (k0, v0) (List.mem_cons_self _ _)
      obtain ⟨L, hL, hmem⟩ := ih (fun kv2 h2 => h kv2 (List.mem_cons_of_mem _ h2))
      refine ⟨hd :: bd :: L, by simp [renderKVBody, hhd, hbd, hL, exbind_ok], ?_⟩
      intro k v m hkv hrec
      rcases List.mem_cons.mp hkv with heq | htail
      · have hv : v = v0 := congrArg Prod.snd heq
        rw [hv] at hrec
        have : bd = m := Except.ok.inj (hbd.symm.trans hrec)
        rw [← this]
        simp
      · exact List.mem_cons_of_mem _ (List.mem_cons_of_mem _ (hmem k v m htail hrec))

/-- For a closed heap, a resolving id and a valid indent type, the
renderer returns a string (for any sufficient fuel): the Python function
never raises on such inputs. -/
theorem renderFuel_ok_aux : ∀ (n : Nat) (heap : Heap), closedHeap heap = true →
    ∀ (f data_id lvl : Nat) (ty : String) (visited : List Nat),
    f ≤ n → validIndentType ty →
    (List.lookup data_id heap).isSome = true →
    freeCount heap visited + 1 ≤ f →
    ∃ s, renderFuel heap f data_id lvl ty visited = Except.ok s := by
  intro n
  induction n with
  | zero =>
      intro heap hC f data_id lvl ty visited hf hty hid hb
      exfalso
      omega
  | succ n ih =>
      intro heap hC f data_id lvl ty visited hf hty hid hb
      obtain ⟨f', rfl⟩ : ∃ f', f = f' + 1 := ⟨f - 1, by omega⟩
      obtain ⟨data, hlook⟩ := Option.isSome_iff_exists.mp hid
      simp only [renderFuel, hlook]
      by_cases hv : data_id ∈ visited
      · rw [if_pos hv]
        exact str_ind_ok _ lvl ty hty
      · rw [if_neg hv]
        have hchild : ∀ r ∈ refsOf data,
            ∃ s, renderFuel heap f' r (lvl + 1) ty (data_id :: visited) =
              Except.ok s := by
          intro r hr
          obtain ⟨o2, ho2⟩ := closedHeap_resolve hC hlook hr
          have hdec := freeCount_visit heap visited data_id data hlook hv
          exact ih heap hC f' r (lvl + 1) ty (data_id :: visited)
            (by omega) hty (by simp [ho2]) (by omega)
        cases data with
        | none => exact str_ind_ok _ lvl ty hty
        | bytes bs => exact str_ind_ok _ lvl ty hty
        | str s =>
            dsimp only
            by_cases hc : (decide (MIN_B64_IMG_ENCONDING_LENGTH ≤ s.length) &&
                (dataImageMatch s.data || b64TailMatch s.data)) = true
            · rw [if_pos hc]; exact str_ind_ok _ lvl ty hty
            · rw [if_neg hc]; exact str_ind_ok _ lvl ty hty
        | bool b => exact str_ind_ok _ lvl ty hty
        | int m => exact str_ind_ok _ lvl ty hty
        | float r => exact str_ind_ok _ lvl ty hty
        | typ nm => exact str_ind_ok _ lvl ty hty
        | other tn tr => exact str_ind_ok _ lvl ty hty
        | list items =>
            dsimp only
            by_cases he : items.isEmpty = true
            · rw [if_pos he]; exact str_ind_ok _ lvl ty hty
            · rw [if_neg he]
              obtain ⟨t, ht⟩ := str_ind_ok "list:" lvl ty hty
              obtain ⟨o, ho⟩ := str_ind_ok "[" lvl ty hty
              obtain ⟨L, hL⟩ := renderSeqBody_ok
                (fun v => renderFuel heap f' v (lvl + 1) ty (data_id :: visited))
                lvl ty hty items (fun i hi => hchild i hi)
              obtain ⟨c, hc⟩ := str_ind_ok "]" lvl ty hty
              exact ⟨pyJoin "\n" (t :: o :: (L ++ [c])),
                by simp [ht, ho, hL, hc, exbind_ok]⟩
        | tuple items =>
            dsimp only
            by_cases he : items.isEmpty = true
            · rw [if_pos he]; exact str_ind_ok _ lvl ty hty
            · rw [if_neg he]
              obtain ⟨t, ht⟩ := str_ind_ok "tuple:" lvl ty hty
              obtain ⟨o, ho⟩ := str_ind_ok "(" lvl ty hty
              obtain ⟨L, hL⟩ := renderSeqBody_ok
                (fun v => renderFuel heap f' v (lvl + 1) ty (data_id :: visited))
                lvl ty hty items (fun i hi => hchild i hi)
              obtain ⟨c, hc⟩ := str_ind_ok ")" lvl ty hty
              exact ⟨pyJoin "\n" (t :: o :: (L ++ [c])),
                by simp [ht, ho, hL, hc, exbind_ok]⟩
        | dict entries =>
            dsimp only
            by_cases he : entries.isEmpty = true
            · rw [if_pos he]; exact str_ind_ok _ lvl ty hty
            · rw [if_neg he]
              obtain ⟨t, ht⟩ := str_ind_ok "dict:" lvl ty hty
              obtain ⟨o, ho⟩ := str_ind_ok "\x7b" lvl ty hty
              obtain ⟨L, hL, -⟩ := renderKVBody_ok_mem
                (fun v => renderFuel heap f' v (lvl + 1) ty (data_id :: visited))
                lvl ty hty entries
                (fun kv hkv => hchild kv.2 (List.mem_map_of_mem Prod.snd hkv))
              obtain ⟨c, hc⟩ := str_ind_ok "\x7d" lvl ty hty
              exact ⟨pyJoin "\n" (t :: o :: (L ++ [c])),
                by simp [ht, ho, hL, hc, exbind_ok]⟩
        | obj cls attrs =>
            dsimp only
            obtain ⟨hd, hhd⟩ := str_ind_ok ("object of class \x27" ++ cls ++ "\x27")
              lvl ty hty
            by_cases hdep : MAX_RECURSION_DEPTH < lvl
            · obtain ⟨mk, hmk⟩ := str_ind_ok "<max depth reached>" (lvl + 1) ty hty
              exact ⟨pyJoin "\n" [hd, mk], by simp [hhd, hdep, hmk, exbind_ok]⟩
            · by_cases hfe : (attrs.filter
                  (fun kv => !(kv.1.startsWith "_" || kv.1.startsWith "__"))).isEmpty = true
              · exact ⟨pyJoin "\n" [hd], by
                  rw [hhd]
                  simp only [exbind_ok]
                  rw [if_neg hdep, if_pos hfe]⟩
              · obtain ⟨o, ho⟩ := str_ind_ok "\x7b" lvl ty hty
                obtain ⟨L, hL, -⟩ := renderKVBody_ok_mem
                  (fun v => renderFuel heap f' v (lvl + 1) ty (data_id :: visited))
                  lvl ty hty
                  (attrs.filter
                    (fun kv => !(kv.1.startsWith "_" || kv.1.startsWith "__")))
                  (fun kv hkv => hchild kv.2
                    (List.mem_map_of_mem Prod.snd (List.mem_of_mem_filter hkv)))
                obtain ⟨c, hc⟩ := str_ind_ok "\x7d" lvl ty hty
                exact ⟨pyJoin "\n" (hd :: o :: (L ++ [c])), by
                  rw [hhd]
                  simp only [exbind_ok]
                  rw [if_neg hdep, if_neg hfe, ho]
                  simp only [exbind_ok]
                  rw [hL]
                  simp only [exbind_ok]
                  rw [hc]
                  simp only [exbind_ok]⟩

theorem renderFuel_ok (heap : Heap) (hC : closedHeap heap = true)
    (f data_id lvl : Nat) (ty : String) (visited : List Nat)
    (hty : validIndentType ty)
    (hid : (List.lookup data_id heap).isSome = true)
    (hb : freeCount heap visited + 1 ≤ f) :
    ∃ s, renderFuel heap f data_id lvl ty visited = Except.ok s :=
  renderFuel_ok_aux f heap hC f data_id lvl ty visited (Nat.le_refl f) hty hid hb

/-! ### String-join membership -/

theorem string_data_append (a b : String) : (a ++ b).data = a.data ++ b.data := by
  cases a
  cases b
  rfl

/-- A line of the joined list occurs in the joined string (as a
contiguous segment of its characters). -/
theorem mem_pyJoin_infix (m : String) (L : List String) (h : m ∈ L) :
    List.IsInfix m.data (pyJoin "\n" L).data := by
  induction L with
  | nil => simp at h
  | cons x rest ih =>
      rcases List.mem_cons.mp h with heq | htail
      · subst heq
        cases rest with
        | nil => exact ⟨[], [], by simp [pyJoin]⟩
        | cons y t =>
            refine ⟨[], ("\n" ++ pyJoin "\n" (y :: t)).data, ?_⟩
            simp [pyJoin, string_data_append, List.append_assoc]
      · have hne : rest ≠ [] := List.ne_nil_of_mem htail
        obtain ⟨s, t, hst⟩ := ih htail
        match rest, hne with
        | y :: t2, _ =>
            exact ⟨(x ++ "\n").data ++ s, t, by
              simp [pyJoin, string_data_append, List.append_assoc, hst]⟩

/-- Equality of renderer results is decidable (used to evaluate the
concrete examples below). -/
instance : DecidableEq (Except String String) := fun a b =>
  match a, b with
  | Except.ok x, Except.ok y =>
      if h : x = y then isTrue (by rw [h]) else isFalse (by simp [h])
  | Except.error x, Except.error y =>
      if h : x = y then isTrue (by rw [h]) else isFalse (by simp [h])
  | Except.ok _, Except.error _ => isFalse (by simp)
  | Except.error _, Except.ok _ => isFalse (by simp)

/-- Executable check that `needle` occurs contiguously in `hay`. -/
def containsSeg (hay needle : List Char) : Bool :=
  match hay with
  | [] => needle.isEmpty
  | _ :: t => needle.isPrefixOf hay || containsSeg t needle

theorem infix_iff_containsSeg (needle hay : List Char) :
    List.IsInfix needle hay ↔ containsSeg hay needle = true := by
  induction hay with
  | nil => simp [containsSeg, List.isEmpty_iff]
  | cons x t ih =>
      simp only [containsSeg, Bool.or_eq_true, ← ih]
      constructor
      · intro h
        rcases List.infix_cons_iff.mp h with hp | hi
        · exact Or.inl (List.isPrefixOf_iff_prefix.mpr hp)
        · exact Or.inr hi
      · rintro (hp | hi)
        · exact (List.isPrefixOf_iff_prefix.mp hp).isInfix
        · exact List.infix_cons hi

/-! ### Claims about the printer -/

/-- A list nested thirteen levels deep: ids `0..11` are one-element lists,
id `12` is the integer `42`. -/
def heapC1 : Heap :=
  [(0, Obj.list [1]), (1, Obj.list [2]), (2, Obj.list [3]), (3, Obj.list [4]),
   (4, Obj.list [5]), (5, Obj.list [6]), (6, Obj.list [7]), (7, Obj.list [8]),
   (8, Obj.list [9]), (9, Obj.list [10]), (10, Obj.list [11]), (11, Obj.list [12]),
   (12, Obj.int 42)]

/-- The full rendering of `heapC1` with tab indentation: the innermost
`int: 42` appears at indentation level 12 and no depth marker is ever
emitted. -/
def c1_expected : String :=
  "list:\n[\n[>] item:\n\tlist:\n\t[\n\t[>] item:\n\t\tlist:\n\t\t[\n\t\t[>] item:\n\t\t\tlist:\n\t\t\t[\n\t\t\t[>] item:\n\t\t\t\tlist:\n\t\t\t\t[\n\t\t\t\t[>] item:\n\t\t\t\t\tlist:\n\t\t\t\t\t[\n\t\t\t\t\t[>] item:\n\t\t\t\t\t\tlist:\n\t\t\t\t\t\t[\n\t\t\t\t\t\t[>] item:\n\t\t\t\t\t\t\tlist:\n\t\t\t\t\t\t\t[\n\t\t\t\t\t\t\t[>] item:\n\t\t\t\t\t\t\t\tlist:\n\t\t\t\t\t\t\t\t[\n\t\t\t\t\t\t\t\t[>] item:\n\t\t\t\t\t\t\t\t\tlist:\n\t\t\t\t\t\t\t\t\t[\n\t\t\t\t\t\t\t\t\t[>] item:\n\t\t\t\t\t\t\t\t\t\tlist:\n\t\t\t\t\t\t\t\t\t\t[\n\t\t\t\t\t\t\t\t\t\t[>] item:\n\t\t\t\t\t\t\t\t\t\t\tlist:\n\t\t\t\t\t\t\t\t\t\t\t[\n\t\t\t\t\t\t\t\t\t\t\t[>] item:\n\t\t\t\t\t\t\t\t\t\t\t\tint: 42\n\t\t\t\t\t\t\t\t\t\t\t]\n\t\t\t\t\t\t\t\t\t\t]\n\t\t\t\t\t\t\t\t\t]\n\t\t\t\t\t\t\t\t]\n\t\t\t\t\t\t\t]\n\t\t\t\t\t\t]\n\t\t\t\t\t]\n\t\t\t\t]\n\t\t\t]\n\t\t]\n\t]\n]"

/-- C1 counterexample.  A list nested beyond ten levels is rendered in
full: recursion descends to level 12, no `<max depth reached>` marker is
substituted.  The depth guard does not bound recursion for sequences or
mappings. -/
theorem str_recursively_no_depth_guard_for_lists :
    str_recursively heapC1 0 0 "tabs" = Except.ok c1_expected ∧
    ¬ List.IsInfix "<max depth reached>".data c1_expected.data ∧
    List.IsInfix "int: 42".data c1_expected.data :=
  ⟨by decide,
   by simp only [infix_iff_containsSeg]; decide,
   by simp only [infix_iff_containsSeg]; decide⟩

/-- C1 (amended).  The `indent_level > MAX_RECURSION_DEPTH` guard lives
only in the generic-object branch (printing.py line 232): an object
instance reached at `indent_level > 10` renders as its header line
followed by the `<max depth reached>` marker at `indent_level + 1`, and
its attributes are not descended into.  No other branch consults the
depth. -/
theorem str_recursively_depth_guard_objects_only (heap : Heap)
    (fuel data_id lvl : Nat) (ty : String) (visited : List Nat)
    (cls : String) (attrs : List (String × Nat))
    (hlook : List.lookup data_id heap = some (Obj.obj cls attrs))
    (hv : data_id ∉ visited)
    (hdepth : MAX_RECURSION_DEPTH < lvl) :
    renderFuel heap (fuel + 1) data_id lvl ty visited =
      (do
        let header ← str_ind ("object of class \x27" ++ cls ++ "\x27") lvl ty
        let marker ← str_ind "<max depth reached>" (lvl + 1) ty
        Except.ok (pyJoin "\n" [header, marker])) := by
  simp only [renderFuel, hlook]
  rw [if_neg hv]
  apply congrArg
  funext header
  rw [if_pos hdepth]

theorem str_recursively_depth_guard_witness :
    (List.lookup 0 [(0, Obj.obj "Foo" [("x", 1)]), (1, Obj.int 7)] =
        some (Obj.obj "Foo" [("x", 1)])) ∧
    (0 ∉ ([] : List Nat)) ∧ MAX_RECURSION_DEPTH < 11 ∧
    renderFuel [(0, Obj.obj "Foo" [("x", 1)]), (1, Obj.int 7)] (2 + 1) 0 11
        "spaces" [] =
      (do
        let header ← str_ind ("object of class \x27" ++ "Foo" ++ "\x27") 11 "spaces"
        let marker ← str_ind "<max depth reached>" (11 + 1) "spaces"
        Except.ok (pyJoin "\n" [header, marker])) :=
  ⟨rfl, by decide, by decide,
    str_recursively_depth_guard_objects_only _ 2 0 11 "spaces" [] "Foo" [("x", 1)]
      rfl (by decide) (by decide)⟩

/-- C2 counterexample.  `str_recursively` is not total over all argument
values: with an indent type other than `'spaces'`/`'tabs'` the very first
`str_ind` call raises `ValueError` (printing.py line 99), which propagates
out of `str_recursively`. -/
theorem str_recursively_invalid_indent_type_raises :
    str_recursively [(0, Obj.none)] 0 0 "bogus" =
      Except.error "In str_ind: Invalid ind_type \x27bogus\x27" := rfl

/-- C2 (amended).  `strip_jsonc_comments` is total: it returns a string on
every input.  `str_recursively` returns a string for every value shape
provided its `indent_type` argument is `'spaces'` or `'tabs'` (the cycle
and depth guards substitute markers rather than failing); for any other
indent type it raises `ValueError` through `str_ind`. -/
theorem strip_total_and_render_total_for_valid_indent :
    (∀ data : String, ∃ out, strip_jsonc_comments data = out) ∧
    (∀ (heap : Heap) (data_id lvl : Nat) (ty : String),
      validIndentType ty → closedHeap heap = true →
      (List.lookup data_id heap).isSome = true →
      ∃ s, str_recursively heap data_id lvl ty = Except.ok s) := by
  refine ⟨fun data => ⟨_, rfl⟩, ?_⟩
  intro heap data_id lvl ty hty hC hid
  exact renderFuel_ok heap hC (heap.length + 1) data_id lvl ty [] hty hid
    (by have := freeCount_le_length heap []; omega)

theorem strip_total_and_render_total_witness :
    validIndentType "spaces" ∧ closedHeap [(0, Obj.none)] = true ∧
    (List.lookup 0 [(0, Obj.none)]).isSome = true ∧
    ∃ s, str_recursively [(0, Obj.none)] 0 0 "spaces" = Except.ok s :=
  ⟨Or.inl rfl, by decide, by decide,
    strip_total_and_render_total_for_valid_indent.2 [(0, Obj.none)] 0 0 "spaces"
      (Or.inl rfl) (by decide) (by decide)⟩

/-- C6 (confirmed).  A self-referential mapping — a dict holding itself
under some key — terminates (the result is already stable at the standard
fuel, and any larger fuel computes the same string) and renders the
`<circular reference to dict>` marker line, indented one level deeper, at
the position of the self-reference inside the rendered entries. -/
theorem self_referential_dict_terminates_with_marker
    (heap : Heap) (i lvl : Nat) (ty : String)
    (entries : List (String × Nat)) (k : String)
    (hC : closedHeap heap = true) (hty : validIndentType ty)
    (hlook : List.lookup i heap = some (Obj.dict entries))
    (hmem : (k, i) ∈ entries) :
    (∀ fuel, heap.length + 1 ≤ fuel →
      renderFuel heap fuel i lvl ty [] = str_recursively heap i lvl ty) ∧
    (∃ out marker,
      str_recursively heap i lvl ty = Except.ok out ∧
      str_ind "<circular reference to dict>" (lvl + 1) ty = Except.ok marker ∧
      List.IsInfix marker.data out.data) := by
  constructor
  · intro fuel hf
    exact str_recursively_fuel_independent heap i lvl ty fuel hf
  · have hne : entries ≠ [] := List.ne_nil_of_mem hmem
    have hnemp : ¬ entries.isEmpty = true := by
      simpa [List.isEmpty_iff] using hne
    have hlen1 : 1 ≤ heap.length := by
      have := List.length_pos.mpr (List.ne_nil_of_mem (lookup_mem hlook))
      omega
    have hvisit := freeCount_visit heap [] i (Obj.dict entries) hlook (by simp)
    have hfree : freeCount heap [i] + 1 ≤ heap.length := by
      have h0 := freeCount_le_length heap []
      omega
    obtain ⟨t, ht⟩ := str_ind_ok "dict:" lvl ty hty
    obtain ⟨o, ho⟩ := str_ind_ok "\x7b" lvl ty hty
    obtain ⟨c, hc⟩ := str_ind_ok "\x7d" lvl ty hty
    obtain ⟨hl', hheq⟩ : ∃ hl', heap.length = hl' + 1 := ⟨heap.length - 1, by omega⟩
    have hmarker : ∃ m, renderFuel heap heap.length i (lvl + 1) ty [i] = Except.ok m ∧
        str_ind "<circular reference to dict>" (lvl + 1) ty = Except.ok m := by
      obtain ⟨m, hm⟩ := str_ind_ok ("<circular reference to " ++
        typeName (Obj.dict entries) ++ ">") (lvl + 1) ty hty
      refine ⟨m, ?_, hm⟩
      rw [hheq]
      simp only [renderFuel, hlook]
      rw [if_pos (by simp : i ∈ [i])]
      exact hm
    obtain ⟨m, hmrun, hmstr⟩ := hmarker
    have hchild : ∀ kv ∈ entries,
        ∃ s, renderFuel heap heap.length kv.2 (lvl + 1) ty [i] = Except.ok s := by
      intro kv hkv
      obtain ⟨o2, ho2⟩ := closedHeap_resolve hC hlook
        (List.mem_map_of_mem Prod.snd hkv)
      exact renderFuel_ok heap hC heap.length kv.2 (lvl + 1) ty [i] hty
        (by simp [ho2]) hfree
    obtain ⟨L, hL, hLmem⟩ := renderKVBody_ok_mem
      (fun v => renderFuel heap heap.length v (lvl + 1) ty [i])
      lvl ty hty entries hchild
    have hmmem : m ∈ L := hLmem k i m hmem hmrun
    refine ⟨pyJoin "\n" (t :: o :: (L ++ [c])), m, ?_, hmstr, ?_⟩
    · unfold str_recursively
      simp only [renderFuel, hlook]
      rw [if_neg (by simp : ¬ i ∈ ([] : List Nat))]
      rw [if_neg hnemp, ht]
      simp only [exbind_ok]
      rw [ho]
      simp only [exbind_ok]
      rw [hL]
      simp only [exbind_ok]
      rw [hc]
      simp only [exbind_ok]
    · exact mem_pyJoin_infix m _ (by simp [hmmem])

theorem self_referential_dict_witness :
    closedHeap [(0, Obj.dict [("self", 0)])] = true ∧
    validIndentType "spaces" ∧
    (List.lookup 0 [(0, Obj.dict [("self", 0)])] = some (Obj.dict [("self", 0)])) ∧
    (("self", 0) ∈ [(("self" : String), (0 : Nat))]) ∧
    ((∀ fuel, [(0, Obj.dict [("self", 0)])].length + 1 ≤ fuel →
      renderFuel [(0, Obj.dict [("self", 0)])] fuel 0 0 "spaces" [] =
        str_recursively [(0, Obj.dict [("self", 0)])] 0 0 "spaces") ∧
    (∃ out marker,
      str_recursively [(0, Obj.dict [("self", 0)])] 0 0 "spaces" = Except.ok out ∧
      str_ind "<circular reference to dict>" (0 + 1) "spaces" = Except.ok marker ∧
      List.IsInfix marker.data out.data)) :=
  ⟨by decide, Or.inl rfl, rfl, by decide,
    self_referential_dict_terminates_with_marker [(0, Obj.dict [("self", 0)])]
      0 0 "spaces" [("self", 0)] "self" (by decide) (Or.inl rfl) rfl (by decide)⟩

/-- The diamond heap: one list holding the same object (id 1) twice. -/
def heapDiamond : Heap :=
  [(0, Obj.list [1, 1]), (1, Obj.list [2]), (2, Obj.int 5)]

/-- The rendering of `heapDiamond`: the shared object is rendered in full
in both sibling positions, with no circular-reference marker. -/
def c7_expected : String :=
  "list:\n[\n[>] item:\n    list:\n    [\n    [>] item:\n        int: 5\n    ]\n[>] item:\n    list:\n    [\n    [>] item:\n        int: 5\n    ]\n]"

/-- C7 (confirmed).  The visited set holds exactly the ids on the active
recursion path: a list `[a, a]` renders both sibling occurrences with the
same visited set (the parent's path plus the parent itself) and therefore
to the same string `s` — completing the first sibling leaves no trace that
could make the second one a false circular reference.  Concretely, the
diamond heap renders the shared object fully in both positions and its
output contains no circular-reference marker. -/
theorem shared_sibling_reference_not_flagged
    (heap : Heap) (fuel data_id a lvl : Nat) (ty : String) (visited : List Nat)
    (s hd t o c : String)
    (hlook : List.lookup data_id heap = some (Obj.list [a, a]))
    (hv : data_id ∉ visited)
    (hhd : str_ind "[>] item:" lvl ty = Except.ok hd)
    (hs : renderFuel heap fuel a (lvl + 1) ty (data_id :: visited) = Except.ok s)
    (ht : str_ind "list:" lvl ty = Except.ok t)
    (ho : str_ind "[" lvl ty = Except.ok o)
    (hc : str_ind "]" lvl ty = Except.ok c) :
    (renderFuel heap (fuel + 1) data_id lvl ty visited =
      Except.ok (pyJoin "\n" [t, o, hd, s, hd, s, c])) ∧
    (str_recursively heapDiamond 0 0 "spaces" = Except.ok c7_expected ∧
      ¬ List.IsInfix "<circular reference".data c7_expected.data) := by
  refine ⟨?_, by decide, by simp only [infix_iff_containsSeg]; decide⟩
  simp only [renderFuel, hlook]
  rw [if_neg hv]
  rw [if_neg (by simp : ¬([a, a] : List Nat).isEmpty = true), ht]
  simp only [exbind_ok]
  rw [ho]
  simp only [exbind_ok]
  have hbody : renderSeqBody
      (fun i => renderFuel heap fuel i (lvl + 1) ty (data_id :: visited))
      lvl ty [a, a] = Except.ok [hd, s, hd, s] := by
    simp [renderSeqBody, hhd, hs, exbind_ok]
  rw [hbody]
  simp only [exbind_ok]
  rw [hc]
  simp only [exbind_ok]
  rfl

theorem shared_sibling_reference_witness :
    (List.lookup 0 heapDiamond = some (Obj.list [1, 1])) ∧
    (0 ∉ ([] : List Nat)) ∧
    (str_ind "[>] item:" 0 "spaces" = Except.ok "[>] item:") ∧
    (renderFuel heapDiamond 3 1 (0 + 1) "spaces" [0] =
      Except.ok "    list:\n    [\n    [>] item:\n        int: 5\n    ]") ∧
    renderFuel heapDiamond (3 + 1) 0 0 "spaces" [] =
      Except.ok (pyJoin "\n"
        ["list:", "[", "[>] item:",
         "    list:\n    [\n    [>] item:\n        int: 5\n    ]",
         "[>] item:",
         "    list:\n    [\n    [>] item:\n        int: 5\n    ]", "]"]) :=
  ⟨rfl, by decide, rfl, rfl,
    (shared_sibling_reference_not_flagged heapDiamond 3 0 1 0 "spaces" []
      "    list:\n    [\n    [>] item:\n        int: 5\n    ]"
      "[>] item:" "list:" "[" "]" rfl (by decide) rfl rfl rfl rfl rfl).1⟩

/-- C9 (confirmed).  The bare-Base64 redaction regex is matched with `$`
semantics, which also matches just before a final newline: a string of at
least 2000 Base64-alphabet characters followed by one trailing newline —
hence not consisting only of Base64-alphabet characters — still renders
as the redaction placeholder. -/
theorem long_b64_with_trailing_newline_redacted (b : List Char)
    (hlen : MIN_B64_IMG_ENCONDING_LENGTH ≤ b.length)
    (hall : b.all isB64Char = true) :
    str_recursively [(0, Obj.str (String.mk (b ++ ['\n'])))] 0 0 "spaces" =
      Except.ok "str: [Base64 Image Enconding]" := by
  have hne : b ≠ [] := by
    intro h
    subst h
    simp [MIN_B64_IMG_ENCONDING_LENGTH] at hlen
  have htail : b64TailMatch (b ++ ['\n']) = true := by
    unfold b64TailMatch
    simp [List.getLast?_concat, List.dropLast_concat, hall, hne]
  have hcond : (decide (MIN_B64_IMG_ENCONDING_LENGTH ≤
      (String.mk (b ++ ['\n'])).length) &&
      (dataImageMatch (String.mk (b ++ ['\n'])).data ||
        b64TailMatch (String.mk (b ++ ['\n'])).data)) = true := by
    have hlen2 : MIN_B64_IMG_ENCONDING_LENGTH ≤ (String.mk (b ++ ['\n'])).length := by
      show MIN_B64_IMG_ENCONDING_LENGTH ≤ (b ++ ['\n']).length
      rw [List.length_append]
      omega
    have hdata : (String.mk (b ++ ['\n'])).data = b ++ ['\n'] := rfl
    rw [hdata, htail, decide_eq_true hlen2]
    simp
  show renderFuel [(0, Obj.str (String.mk (b ++ ['\n'])))]
      ([(0, Obj.str (String.mk (b ++ ['\n'])))].length + 1) 0 0 "spaces" [] = _
  simp only [List.length_cons, List.length_nil]
  simp only [renderFuel]
  rw [show List.lookup 0 [(0, Obj.str (String.mk (b ++ ['\n'])))] =
    some (Obj.str (String.mk (b ++ ['\n']))) from rfl]
  dsimp only
  rw [if_neg (by simp : ¬ (0 : Nat) ∈ ([] : List Nat))]
  rw [if_pos hcond]
  rfl

theorem long_b64_witness :
    MIN_B64_IMG_ENCONDING_LENGTH ≤ (List.replicate 2000 'A').length ∧
    (List.replicate 2000 'A').all isB64Char = true ∧
    str_recursively [(0, Obj.str (String.mk (List.replicate 2000 'A' ++ ['\n'])))]
        0 0 "spaces" =
      Except.ok "str: [Base64 Image Enconding]" :=
  ⟨by simp [MIN_B64_IMG_ENCONDING_LENGTH],
   by
     rw [List.all_eq_true]
     intro c hc
     rw [List.eq_of_mem_replicate hc]
     decide,
   long_b64_with_trailing_newline_redacted (List.replicate 2000 'A')
     (by simp [MIN_B64_IMG_ENCONDING_LENGTH])
     (by
       rw [List.all_eq_true]
       intro c hc
       rw [List.eq_of_mem_replicate hc]
       decide)⟩

/-- C10 (confirmed).  Python booleans satisfy `isinstance(data, int)`
(`bool` subclasses `int`), so a boolean takes the numeric-scalar branch:
one line tagged with the runtime class name `bool` followed by `str(data)`
— `'bool: True'` / `'bool: False'` — not the fallback case. -/
theorem bool_renders_via_numeric_branch (b : Bool) (lvl : Nat) (ty : String) :
    (str_recursively [(0, Obj.bool b)] 0 lvl ty =
      str_ind ("bool: " ++ pyBool b) lvl ty) ∧
    str_recursively [(0, Obj.bool true)] 0 0 "spaces" = Except.ok "bool: True" := by
  constructor
  · show renderFuel [(0, Obj.bool b)] ([(0, Obj.bool b)].length + 1) 0 lvl ty [] = _
    simp only [List.length_cons, List.length_nil]
    simp only [renderFuel]
    rw [show List.lookup 0 [(0, Obj.bool b)] = some (Obj.bool b) from rfl]
    dsimp only
    rw [if_neg (by simp : ¬ (0 : Nat) ∈ ([] : List Nat))]
  · rfl

end SofiaUtils
